import Mathlib

/-!
Verification of the certificate-chain construction and validation engine of
`src/x509/verify.ts` (sigstore-js).  The engine is embedded shallowly: each
TypeScript function becomes a Lean function over a concrete model of the
external certificate abstraction.  Machine behaviour that the TypeScript
relies on (thrown exceptions, the unbounded recursion of `buildPaths`) is
made explicit with `Except` and a fuel parameter.
-/

namespace SigstoreX509

/-- Modelled from the spec: the external certificate abstraction (spec section 3
and section 6) is not part of the repository sources under verification; only its
interface is described.  A certificate exposes structured `subject` / `issuer`
distinguished names with equality (modelled as `Nat`), a CA flag, a validity
window giving the per-instant validity predicate, optional authority / subject
key identifiers (opaque byte identifiers, modelled as `Nat`), structural
equality (`equals`, modelled as Lean equality of the structure), and a
signature-verification capability.  The cryptographic behaviour is modelled by
`key` (the identity of the certificate's public key) and `signedBy` (the key
that produced the certificate's signature); `selfRaises` and `raiseWith` model
the spec's `verify(issuerCert?) → bool | raises` contract, i.e. the set of
inputs on which the signature check throws instead of returning. -/
structure Cert where
  subject : Nat
  issuer : Nat
  isCA : Bool
  notBefore : Nat
  notAfter : Nat
  akid : Option Nat
  skid : Option Nat
  key : Nat
  signedBy : Nat
  selfRaises : Bool
  raiseWith : List Nat
deriving DecidableEq, Repr

/-- Modelled from the spec: `cert.validForDate(instant)` of the certificate
abstraction — the certificate is valid at every instant of its validity
window. -/
def validForDate (c : Cert) (t : Nat) : Bool :=
  decide (c.notBefore ≤ t) && decide (t ≤ c.notAfter)

/-- Modelled from the spec: `certificate.verify()` with no issuer argument —
the self-check of the certificate's signature against its own key, which may
raise (`Except.error`). -/
def verifySelf (c : Cert) : Except Unit Bool :=
  if c.selfRaises then Except.error () else Except.ok (decide (c.signedBy = c.key))

/-- Modelled from the spec: `certificate.verify(issuerCert)` — the check of the
certificate's signature against the issuer's key, which may raise
(`Except.error`) for issuer keys in `raiseWith`. -/
def verifyWith (c issuerCert : Cert) : Except Unit Bool :=
  if issuerCert.key ∈ c.raiseWith then Except.error ()
  else Except.ok (decide (c.signedBy = issuerCert.key))

/-- The error taxonomy of `verifyCertificateChain`.  The first seven
constructors are the `VerificationError` messages thrown by
`src/x509/verify.ts`; `certRaise` models an exception of the certificate
abstraction escaping uncaught, and `fuelOut` models divergence of the
unguarded recursion of `buildPaths` (reachable only on cyclic issuer graphs,
where the TypeScript never returns). -/
inductive VerifyError where
  | noCertificates
  | noValidPath
  | noTrustedPath
  | chainTooShort
  | expired
  | notCA
  | nameChaining
  | certRaise
  | fuelOut
deriving DecidableEq, Repr

/-- Helper for `dedupeCertificates`: keep a certificate iff no structurally
equal certificate has been kept before (`seen` is the list of already kept
certificates). -/
def dedupeGo : List Cert → List Cert → List Cert
  | [], _ => []
  | c :: rest, seen =>
    if c ∈ seen then dedupeGo rest seen else c :: dedupeGo rest (c :: seen)

/-- `dedupeCertificates` of `src/x509/verify.ts` (lines 200-210): the in-place
splice loop removes, for each certificate, every later structurally equal
(`equals`) occurrence; the result keeps exactly the first occurrence of every
equivalence class, in order, which is what `dedupeGo` computes. -/
def dedupeCertificates (certs : List Cert) : List Cert :=
  dedupeGo certs []

/-- One step of the `forEach` loop of `findIssuer` (lines 137-154).  When the
certificate carries an authority key identifier and the pool member carries a
subject key identifier, the member is pushed iff the identifiers match and the
loop body returns early; a member with no subject key identifier falls through
to the name-based comparison. -/
def candidateIssuersStep (c : Cert) (issuers : List Cert) (possibleIssuer : Cert) :
    List Cert :=
  match c.akid with
  | some kid =>
    match possibleIssuer.skid with
    | some sk => if sk = kid then issuers ++ [possibleIssuer] else issuers
    | none =>
      if possibleIssuer.subject = c.issuer then issuers ++ [possibleIssuer] else issuers
  | none =>
    if possibleIssuer.subject = c.issuer then issuers ++ [possibleIssuer] else issuers

/-- The accumulation of possible issuers performed by the `forEach` loop of
`findIssuer` (lines 137-154). -/
def candidateIssuers (localCerts : List Cert) (c : Cert) : List Cert :=
  localCerts.foldl (candidateIssuersStep c) []

/-- The predicate of the filter at lines 157-163: a candidate is kept iff
`certificate.verify(issuer)` returns true; an exception is caught and treated
as `false`. -/
def verifyFilter (c issuerCert : Cert) : Bool :=
  match verifyWith c issuerCert with
  | Except.ok b => b
  | Except.error _ => false

/-- `findIssuer` of `src/x509/verify.ts` (lines 115-166).  The self-signed
early exit calls `certificate.verify()` outside any try/catch (lines 119-124),
so an exception there escapes (`certRaise`); exceptions inside the filter are
caught (`verifyFilter`). -/
def findIssuer (localCerts : List Cert) (c : Cert) : Except VerifyError (List Cert) :=
  if c.subject = c.issuer then
    match verifySelf c with
    | Except.error _ => Except.error VerifyError.certRaise
    | Except.ok true => Except.ok [c]
    | Except.ok false =>
      Except.ok ((candidateIssuers localCerts c).filter (verifyFilter c))
  else
    Except.ok ((candidateIssuers localCerts c).filter (verifyFilter c))

/-- The loop over `issuers` inside `buildPaths` (lines 93-109), abstracted over
the recursive call `recur`: a self-issued certificate contributes the
single-element path, any other issuer contributes its recursively built
sub-paths with the issuer prepended; the first error aborts. -/
def combinePaths (recur : Cert → Except VerifyError (List (List Cert)))
    (certificate : Cert) :
    List Cert → List (List Cert) → Except VerifyError (List (List Cert))
  | [], paths => Except.ok paths
  | issuerCert :: rest, paths =>
    if issuerCert = certificate then
      combinePaths recur certificate rest (paths ++ [[certificate]])
    else
      match recur issuerCert with
      | Except.error e => Except.error e
      | Except.ok subPaths =>
        combinePaths recur certificate rest
          (paths ++ subPaths.map (fun sp => issuerCert :: sp))

/-- `buildPaths` of `src/x509/verify.ts` (lines 85-112).  The TypeScript
recursion is unbounded; the fuel parameter makes it total, with `fuelOut`
standing for divergence.  Any run of the TypeScript that terminates performs
nested calls on pairwise distinct certificates of the pool, so a fuel of
`pool.length + 1` reproduces every terminating run exactly. -/
def buildPaths (localCerts : List Cert) : Nat → Cert → Except VerifyError (List (List Cert))
  | 0, _ => Except.error VerifyError.fuelOut
  | fuel + 1, certificate =>
    match findIssuer localCerts certificate with
    | Except.error e => Except.error e
    | Except.ok issuers =>
      if issuers.isEmpty then Except.error VerifyError.noValidPath
      else combinePaths (fun c => buildPaths localCerts fuel c) certificate issuers []

/-- The membership test `this.trustedCerts.includes(cert)` of line 68.
JavaScript `includes` compares object references, but every certificate of a
built path is an element of the deduplicated pool, and a pool element is
(referentially) an element of `trustedCerts` exactly when it is structurally
equal to some element of `trustedCerts` — the pool keeps the first occurrence
of every equivalence class and trusted certificates come first — so structural
membership is the faithful translation. -/
def trustedMember (trustedCerts : List Cert) (cert : Cert) : Bool :=
  trustedCerts.any (fun t => decide (t = cert))

/-- The filter at lines 67-69: keep the issuer-side paths containing at least
one trusted certificate. -/
def trustedFilter (trustedCerts : List Cert) (paths : List (List Cert)) :
    List (List Cert) :=
  paths.filter (fun p => p.any (fun cert => trustedMember trustedCerts cert))

/-- The `reduce` at lines 76-78: the first path of minimal length (the
accumulator is kept unless the current path is strictly shorter).  The empty
case is unreachable: the reduce runs only after the emptiness check. -/
def selectShortest : List (List Cert) → List Cert
  | [] => []
  | p :: rest =>
    rest.foldl (fun prev curr => if prev.length < curr.length then prev else curr) p

/-- `sort` of `src/x509/verify.ts` (lines 60-82).  The leaf is the last
element of the deduplicated pool; the `none` branch of `getLast?` is
unreachable from `verify` (the pool is non-empty whenever `certs` is). -/
def sort (trustedCerts localCerts : List Cert) (fuel : Nat) :
    Except VerifyError (List Cert) :=
  match localCerts.getLast? with
  | none => Except.error VerifyError.noValidPath
  | some leafCert =>
    match buildPaths localCerts fuel leafCert with
    | Except.error e => Except.error e
    | Except.ok allPaths =>
      let filtered := trustedFilter trustedCerts allPaths
      if filtered.isEmpty then Except.error VerifyError.noTrustedPath
      else Except.ok (leafCert :: selectShortest filtered)

/-- The adjacent-pair name-chaining loop of `checkPath` (lines 191-195).  The
TypeScript walks the indices from the anchor end toward the leaf, but every
adjacent pair is checked and every failure throws the same error, so the
left-to-right conjunction is observationally identical. -/
def nameChainOk : List Cert → Bool
  | c1 :: c2 :: rest => decide (c1.issuer = c2.subject) && nameChainOk (c2 :: rest)
  | _ => true

/-- `checkPath` of `src/x509/verify.ts` (lines 168-196): the four policy
checks in their fixed order. -/
def checkPath (validAt : Nat) (path : List Cert) : Except VerifyError Unit :=
  if path.length < 2 then Except.error VerifyError.chainTooShort
  else if path.all (fun cert => validForDate cert validAt) = false then
    Except.error VerifyError.expired
  else if (path.drop 1).all (fun cert => cert.isCA) = false then
    Except.error VerifyError.notCA
  else if nameChainOk path = false then Except.error VerifyError.nameChaining
  else Except.ok ()

/-- `CertificateChainVerifier.verify` (lines 45-58) together with the
constructor (lines 38-43): the pool is the deduplicated concatenation of
trusted and supplied certificates; an empty supplied list fails before any
path search. -/
def verify (trustedCerts certs : List Cert) (validAt : Nat) (fuel : Nat) :
    Except VerifyError (List Cert) :=
  let localCerts := dedupeCertificates (trustedCerts ++ certs)
  if certs.isEmpty then Except.error VerifyError.noCertificates
  else
    match sort trustedCerts localCerts fuel with
    | Except.error e => Except.error e
    | Except.ok certificatePath =>
      match checkPath validAt certificatePath with
      | Except.error e => Except.error e
      | Except.ok _ => Except.ok certificatePath

/-- `verifyCertificateChain` (lines 25-30).  `validAt` defaults to the call
time in the TypeScript; the instant is a parameter here.  The fuel
`pool.length + 1` reproduces every terminating run of the unbounded
recursion. -/
def verifyCertificateChain (trustedCerts certs : List Cert) (validAt : Nat) :
    Except VerifyError (List Cert) :=
  verify trustedCerts certs validAt
    ((dedupeCertificates (trustedCerts ++ certs)).length + 1)

/-! ### Helper lemmas -/

theorem mem_of_getLast?_eq : ∀ {l : List Cert} {a : Cert}, l.getLast? = some a → a ∈ l
  | [], _, h => by simp at h
  | [x], a, h => by
    rw [List.getLast?_singleton] at h
    rw [Option.some_inj] at h
    subst h
    exact List.mem_singleton_self x
  | x :: y :: rest, a, h => by
    rw [List.getLast?_cons_cons] at h
    exact List.mem_cons_of_mem x (mem_of_getLast?_eq h)

theorem dedupeGo_subset :
    ∀ (l seen : List Cert) (x : Cert), x ∈ dedupeGo l seen → x ∈ l := by
  intro l
  induction l with
  | nil => intro seen x hx; simp [dedupeGo] at hx
  | cons c rest ih =>
    intro seen x hx
    rw [dedupeGo] at hx
    by_cases hc : c ∈ seen
    · rw [if_pos hc] at hx
      exact List.mem_cons_of_mem c (ih seen x hx)
    · rw [if_neg hc] at hx
      rcases List.mem_cons.mp hx with h | h
      · exact h ▸ List.mem_cons_self c rest
      · exact List.mem_cons_of_mem c (ih (c :: seen) x h)

theorem dedupeGo_append :
    ∀ (l seen : List Cert) (d : Cert), d ∈ l ∨ d ∈ seen →
      dedupeGo (l ++ [d]) seen = dedupeGo l seen := by
  intro l
  induction l with
  | nil =>
    intro seen d hd
    rcases hd with h | h
    · simp at h
    · simp [dedupeGo, h]
  | cons c rest ih =>
    intro seen d hd
    rw [List.cons_append, dedupeGo, dedupeGo]
    by_cases hc : c ∈ seen
    · rw [if_pos hc, if_pos hc]
      apply ih
      rcases hd with h | h
      · rcases List.mem_cons.mp h with h1 | h1
        · exact Or.inr (h1 ▸ hc)
        · exact Or.inl h1
      · exact Or.inr h
    · rw [if_neg hc, if_neg hc]
      congr 1
      apply ih
      rcases hd with h | h
      · rcases List.mem_cons.mp h with h1 | h1
        · exact Or.inr (h1 ▸ List.mem_cons_self c seen)
        · exact Or.inl h1
      · exact Or.inr (List.mem_cons_of_mem c h)

theorem dedupe_subset {l : List Cert} {x : Cert}
    (h : x ∈ dedupeCertificates l) : x ∈ l :=
  dedupeGo_subset l [] x h

theorem dedupe_append_of_mem {l : List Cert} {d : Cert} (h : d ∈ l) :
    dedupeCertificates (l ++ [d]) = dedupeCertificates l :=
  dedupeGo_append l [] d (Or.inl h)

/-- The per-member candidate condition implemented by the `forEach` body. -/
def candidateCond (c p : Cert) : Bool :=
  match c.akid with
  | some kid =>
    match p.skid with
    | some sk => decide (sk = kid)
    | none => decide (p.subject = c.issuer)
  | none => decide (p.subject = c.issuer)

theorem candidateIssuersStep_eq (c : Cert) (acc : List Cert) (p : Cert) :
    candidateIssuersStep c acc p = if candidateCond c p then acc ++ [p] else acc := by
  unfold candidateIssuersStep candidateCond
  cases c.akid with
  | none => by_cases h : p.subject = c.issuer <;> simp [h]
  | some kid =>
    cases p.skid with
    | none => by_cases h : p.subject = c.issuer <;> simp [h]
    | some sk => by_cases h : sk = kid <;> simp [h]

theorem candidateIssuers_aux (c : Cert) :
    ∀ (l acc : List Cert),
      l.foldl (candidateIssuersStep c) acc = acc ++ l.filter (candidateCond c) := by
  intro l
  induction l with
  | nil => intro acc; simp
  | cons p rest ih =>
    intro acc
    rw [List.foldl_cons, ih, candidateIssuersStep_eq, List.filter_cons]
    by_cases h : candidateCond c p
    · rw [if_pos h, if_pos h]
      simp
    · rw [if_neg h, if_neg h]

theorem candidateIssuers_eq_filter (pool : List Cert) (c : Cert) :
    candidateIssuers pool c = pool.filter (candidateCond c) := by
  rw [candidateIssuers, candidateIssuers_aux]
  simp

theorem findIssuer_ok_sub {pool : List Cert} {c : Cert} {issuers : List Cert}
    (h : findIssuer pool c = Except.ok issuers) :
    ∀ i ∈ issuers, i ∈ pool ∨ i = c := by
  intro i hi
  unfold findIssuer at h
  by_cases hself : c.subject = c.issuer
  · rw [if_pos hself] at h
    cases hvs : verifySelf c with
    | error u => rw [hvs] at h; cases h
    | ok b =>
      rw [hvs] at h
      cases b with
      | true =>
        rw [Except.ok.injEq] at h
        subst h
        rcases List.mem_singleton.mp hi with h1
        exact Or.inr h1
      | false =>
        rw [Except.ok.injEq] at h
        subst h
        have := List.mem_of_mem_filter hi
        rw [candidateIssuers_eq_filter] at this
        exact Or.inl (List.mem_of_mem_filter this)
  · rw [if_neg hself, Except.ok.injEq] at h
    subst h
    have := List.mem_of_mem_filter hi
    rw [candidateIssuers_eq_filter] at this
    exact Or.inl (List.mem_of_mem_filter this)

theorem findIssuer_error_eq {pool : List Cert} {c : Cert} {e : VerifyError}
    (h : findIssuer pool c = Except.error e) :
    e = VerifyError.certRaise ∧ c.subject = c.issuer ∧ c.selfRaises = true := by
  unfold findIssuer at h
  by_cases hself : c.subject = c.issuer
  · rw [if_pos hself] at h
    cases hvs : verifySelf c with
    | error u =>
      rw [hvs] at h
      rw [Except.error.injEq] at h
      refine ⟨h.symm, hself, ?_⟩
      unfold verifySelf at hvs
      by_cases hr : c.selfRaises
      · exact hr
      · rw [if_neg hr] at hvs; cases hvs
    | ok b =>
      rw [hvs] at h
      cases b <;> cases h
  · rw [if_neg hself] at h
    cases h

theorem findIssuer_ok_verified {pool : List Cert} {c : Cert} {issuers : List Cert}
    (h : findIssuer pool c = Except.ok issuers) :
    ∀ i ∈ issuers, i = c ∨ verifyWith c i = Except.ok true := by
  intro i hi
  have hfilter : ∀ {l : List Cert}, i ∈ l.filter (verifyFilter c) →
      verifyWith c i = Except.ok true := by
    intro l hl
    have := (List.mem_filter.mp hl).2
    unfold verifyFilter at this
    cases hvw : verifyWith c i with
    | error u => rw [hvw] at this; cases this
    | ok b =>
      rw [hvw] at this
      cases b
      · cases this
      · rfl
  unfold findIssuer at h
  by_cases hself : c.subject = c.issuer
  · rw [if_pos hself] at h
    cases hvs : verifySelf c with
    | error u => rw [hvs] at h; cases h
    | ok b =>
      rw [hvs] at h
      cases b with
      | true =>
        rw [Except.ok.injEq] at h
        subst h
        exact Or.inl (List.mem_singleton.mp hi)
      | false =>
        rw [Except.ok.injEq] at h
        subst h
        exact Or.inr (hfilter hi)
  · rw [if_neg hself, Except.ok.injEq] at h
    subst h
    exact Or.inr (hfilter hi)

theorem combinePaths_error
    (recur : Cert → Except VerifyError (List (List Cert))) (certificate : Cert) :
    ∀ (issuers : List Cert) (acc : List (List Cert)) (e : VerifyError),
      combinePaths recur certificate issuers acc = Except.error e →
      ∃ i ∈ issuers, recur i = Except.error e := by
  intro issuers
  induction issuers with
  | nil => intro acc e h; rw [combinePaths] at h; cases h
  | cons issuerCert rest ih =>
    intro acc e h
    rw [combinePaths] at h
    by_cases heq : issuerCert = certificate
    · rw [if_pos heq] at h
      rcases ih _ e h with ⟨i, hmem, hrec⟩
      exact ⟨i, List.mem_cons_of_mem _ hmem, hrec⟩
    · rw [if_neg heq] at h
      cases hrec : recur issuerCert with
      | error e2 =>
        rw [hrec] at h
        rw [Except.error.injEq] at h
        subst h
        exact ⟨issuerCert, List.mem_cons_self _ _, hrec⟩
      | ok subPaths =>
        rw [hrec] at h
        rcases ih _ e h with ⟨i, hmem, hrec2⟩
        exact ⟨i, List.mem_cons_of_mem _ hmem, hrec2⟩

theorem combinePaths_ok_paths
    (recur : Cert → Except VerifyError (List (List Cert)))
    (pool : List Cert) (certificate : Cert)
    (Hrec : ∀ i ps, i ∈ pool → recur i = Except.ok ps →
      ∀ p ∈ ps, p ≠ [] ∧ ∀ x ∈ p, x ∈ pool)
    (Hcert : certificate ∈ pool) :
    ∀ (issuers : List Cert) (acc ps : List (List Cert)),
      (∀ i ∈ issuers, i ∈ pool) →
      (∀ p ∈ acc, p ≠ [] ∧ ∀ x ∈ p, x ∈ pool) →
      combinePaths recur certificate issuers acc = Except.ok ps →
      ∀ p ∈ ps, p ≠ [] ∧ ∀ x ∈ p, x ∈ pool := by
  intro issuers
  induction issuers with
  | nil =>
    intro acc ps _ Hacc h
    rw [combinePaths, Except.ok.injEq] at h
    subst h
    exact Hacc
  | cons issuerCert rest ih =>
    intro acc ps Hiss Hacc h
    rw [combinePaths] at h
    have hhd : issuerCert ∈ pool := Hiss issuerCert (List.mem_cons_self _ _)
    have htl : ∀ i ∈ rest, i ∈ pool := fun i hi => Hiss i (List.mem_cons_of_mem _ hi)
    by_cases heq : issuerCert = certificate
    · rw [if_pos heq] at h
      refine ih _ ps htl ?_ h
      intro p hp
      rcases List.mem_append.mp hp with h1 | h1
      · exact Hacc p h1
      · rcases List.mem_singleton.mp h1 with h2
        subst h2
        exact ⟨List.cons_ne_nil _ _, by
          intro x hx
          rcases List.mem_singleton.mp hx with h3
          subst h3
          exact Hcert⟩
    · rw [if_neg heq] at h
      cases hrec : recur issuerCert with
      | error e => rw [hrec] at h; cases h
      | ok subPaths =>
        rw [hrec] at h
        refine ih _ ps htl ?_ h
        intro p hp
        rcases List.mem_append.mp hp with h1 | h1
        · exact Hacc p h1
        · rcases List.mem_map.mp h1 with ⟨sp, hsp, hspe⟩
          subst hspe
          have hsub := Hrec issuerCert subPaths hhd hrec sp hsp
          refine ⟨List.cons_ne_nil _ _, ?_⟩
          intro x hx
          rcases List.mem_cons.mp hx with h2 | h2
          · exact h2 ▸ hhd
          · exact hsub.2 x h2

theorem buildPaths_ok_paths (pool : List Cert) :
    ∀ (fuel : Nat) (c : Cert) (ps : List (List Cert)), c ∈ pool →
      buildPaths pool fuel c = Except.ok ps →
      ∀ p ∈ ps, p ≠ [] ∧ ∀ x ∈ p, x ∈ pool := by
  intro fuel
  induction fuel with
  | zero => intro c ps _ h; rw [buildPaths] at h; cases h
  | succ n ih =>
    intro c ps hc h
    rw [buildPaths] at h
    cases hfi : findIssuer pool c with
    | error e => rw [hfi] at h; cases h
    | ok issuers =>
      rw [hfi] at h
      dsimp only at h
      by_cases hemp : issuers.isEmpty
      · rw [if_pos hemp] at h; cases h
      · rw [if_neg hemp] at h
        have hiss : ∀ i ∈ issuers, i ∈ pool := by
          intro i hi
          rcases findIssuer_ok_sub hfi i hi with h1 | h1
          · exact h1
          · exact h1 ▸ hc
        exact combinePaths_ok_paths _ pool c
          (fun i ps2 hi hrec => ih i ps2 hi hrec) hc issuers [] ps hiss
          (by intro p hp; cases hp) h

theorem buildPaths_error_cases (pool : List Cert) :
    ∀ (fuel : Nat) (c : Cert) (e : VerifyError),
      buildPaths pool fuel c = Except.error e →
      e = VerifyError.certRaise ∨ e = VerifyError.noValidPath ∨
        e = VerifyError.fuelOut := by
  intro fuel
  induction fuel with
  | zero =>
    intro c e h
    rw [buildPaths] at h
    rw [Except.error.injEq] at h
    exact Or.inr (Or.inr h.symm)
  | succ n ih =>
    intro c e h
    rw [buildPaths] at h
    cases hfi : findIssuer pool c with
    | error e2 =>
      rw [hfi] at h
      rw [Except.error.injEq] at h
      subst h
      exact Or.inl (findIssuer_error_eq hfi).1
    | ok issuers =>
      rw [hfi] at h
      dsimp only at h
      by_cases hemp : issuers.isEmpty
      · rw [if_pos hemp] at h
        rw [Except.error.injEq] at h
        exact Or.inr (Or.inl h.symm)
      · rw [if_neg hemp] at h
        rcases combinePaths_error _ c issuers [] e h with ⟨i, _, hrec⟩
        exact ih i e hrec

theorem shortestFold_mem :
    ∀ (rest : List (List Cert)) (p : List Cert),
      rest.foldl (fun prev curr => if prev.length < curr.length then prev else curr) p ∈
        p :: rest := by
  intro rest
  induction rest with
  | nil => intro p; simp
  | cons c rest ih =>
    intro p
    rw [List.foldl_cons]
    by_cases h : p.length < c.length
    · rw [if_pos h]
      rcases List.mem_cons.mp (ih p) with h1 | h1
      · exact List.mem_cons.mpr (Or.inl h1)
      · exact List.mem_cons.mpr (Or.inr (List.mem_cons_of_mem _ h1))
    · rw [if_neg h]
      exact List.mem_cons_of_mem _ (ih c)

theorem shortestFold_min :
    ∀ (rest : List (List Cert)) (p : List Cert),
      (rest.foldl (fun prev curr => if prev.length < curr.length then prev else curr)
          p).length ≤ p.length ∧
      ∀ q ∈ rest,
        (rest.foldl (fun prev curr => if prev.length < curr.length then prev else curr)
            p).length ≤ q.length := by
  intro rest
  induction rest with
  | nil => intro p; exact ⟨Nat.le_refl _, by intro q hq; cases hq⟩
  | cons c rest ih =>
    intro p
    rw [List.foldl_cons]
    by_cases h : p.length < c.length
    · rw [if_pos h]
      refine ⟨(ih p).1, ?_⟩
      intro q hq
      rcases List.mem_cons.mp hq with h1 | h1
      · exact h1 ▸ Nat.le_trans (ih p).1 (Nat.le_of_lt h)
      · exact (ih p).2 q h1
    · rw [if_neg h]
      have hcp : c.length ≤ p.length := Nat.le_of_not_lt h
      refine ⟨Nat.le_trans (ih c).1 hcp, ?_⟩
      intro q hq
      rcases List.mem_cons.mp hq with h1 | h1
      · exact h1 ▸ (ih c).1
      · exact (ih c).2 q h1

theorem selectShortest_mem {l : List (List Cert)} (h : l ≠ []) :
    selectShortest l ∈ l := by
  cases l with
  | nil => exact absurd rfl h
  | cons p rest => exact shortestFold_mem rest p

theorem selectShortest_min {l : List (List Cert)} :
    ∀ q ∈ l, (selectShortest l).length ≤ q.length := by
  cases l with
  | nil => intro q hq; cases hq
  | cons p rest =>
    intro q hq
    rcases List.mem_cons.mp hq with h1 | h1
    · exact h1 ▸ (shortestFold_min rest p).1
    · exact (shortestFold_min rest p).2 q h1

theorem trustedMember_iff (trustedCerts : List Cert) (cert : Cert) :
    trustedMember trustedCerts cert = true ↔ cert ∈ trustedCerts := by
  unfold trustedMember
  rw [List.any_eq_true]
  constructor
  · rintro ⟨t, ht, hdec⟩
    rw [decide_eq_true_iff] at hdec
    exact hdec ▸ ht
  · intro hmem
    exact ⟨cert, hmem, by simp⟩

theorem trustedFilter_sub {trustedCerts : List Cert} {paths : List (List Cert)}
    {p : List Cert} (h : p ∈ trustedFilter trustedCerts paths) :
    p ∈ paths ∧ ∃ x ∈ p, x ∈ trustedCerts := by
  rcases List.mem_filter.mp h with ⟨hmem, hany⟩
  refine ⟨hmem, ?_⟩
  rcases List.any_eq_true.mp hany with ⟨x, hx, htm⟩
  exact ⟨x, hx, (trustedMember_iff _ _).mp htm⟩

theorem sort_ok_shape {trustedCerts localCerts : List Cert} {fuel : Nat}
    {P : List Cert} (h : sort trustedCerts localCerts fuel = Except.ok P) :
    ∃ leafCert allPaths,
      localCerts.getLast? = some leafCert ∧
      buildPaths localCerts fuel leafCert = Except.ok allPaths ∧
      trustedFilter trustedCerts allPaths ≠ [] ∧
      P = leafCert :: selectShortest (trustedFilter trustedCerts allPaths) := by
  unfold sort at h
  cases hlast : localCerts.getLast? with
  | none => rw [hlast] at h; cases h
  | some leafCert =>
    rw [hlast] at h
    dsimp only at h
    cases hbp : buildPaths localCerts fuel leafCert with
    | error e => rw [hbp] at h; cases h
    | ok allPaths =>
      rw [hbp] at h
      dsimp only at h
      by_cases hemp : (trustedFilter trustedCerts allPaths).isEmpty
      · rw [if_pos hemp] at h; cases h
      · rw [if_neg hemp] at h
        rw [Except.ok.injEq] at h
        refine ⟨leafCert, allPaths, rfl, hbp, ?_, h.symm⟩
        intro hnil
        rw [hnil] at hemp
        exact hemp rfl

theorem sort_error_cases {trustedCerts localCerts : List Cert} {fuel : Nat}
    {e : VerifyError} (h : sort trustedCerts localCerts fuel = Except.error e) :
    e = VerifyError.noValidPath ∨ e = VerifyError.noTrustedPath ∨
      e = VerifyError.certRaise ∨ e = VerifyError.fuelOut := by
  unfold sort at h
  cases hlast : localCerts.getLast? with
  | none =>
    rw [hlast] at h
    rw [Except.error.injEq] at h
    exact Or.inl h.symm
  | some leafCert =>
    rw [hlast] at h
    dsimp only at h
    cases hbp : buildPaths localCerts fuel leafCert with
    | error e2 =>
      rw [hbp] at h
      rw [Except.error.injEq] at h
      subst h
      rcases buildPaths_error_cases localCerts fuel leafCert e2 hbp with h1 | h1 | h1
      · exact Or.inr (Or.inr (Or.inl h1))
      · exact Or.inl h1
      · exact Or.inr (Or.inr (Or.inr h1))
    | ok allPaths =>
      rw [hbp] at h
      dsimp only at h
      by_cases hemp : (trustedFilter trustedCerts allPaths).isEmpty
      · rw [if_pos hemp] at h
        rw [Except.error.injEq] at h
        exact Or.inr (Or.inl h.symm)
      · rw [if_neg hemp] at h; cases h

theorem verify_ok_shape {trustedCerts certs : List Cert} {validAt fuel : Nat}
    {P : List Cert} (h : verify trustedCerts certs validAt fuel = Except.ok P) :
    certs ≠ [] ∧
    sort trustedCerts (dedupeCertificates (trustedCerts ++ certs)) fuel =
      Except.ok P ∧
    checkPath validAt P = Except.ok () := by
  unfold verify at h
  by_cases hemp : certs.isEmpty
  · rw [if_pos hemp] at h; cases h
  · rw [if_neg hemp] at h
    refine ⟨by simpa [List.isEmpty_iff] using hemp, ?_⟩
    cases hs : sort trustedCerts (dedupeCertificates (trustedCerts ++ certs)) fuel with
    | error e => rw [hs] at h; cases h
    | ok certificatePath =>
      rw [hs] at h
      dsimp only at h
      cases hcp : checkPath validAt certificatePath with
      | error e => rw [hcp] at h; cases h
      | ok u =>
        rw [hcp] at h
        rw [Except.ok.injEq] at h
        subst h
        cases u
        exact ⟨rfl, hcp⟩

theorem sort_ok_len {trustedCerts localCerts : List Cert} {fuel : Nat}
    {P : List Cert} (h : sort trustedCerts localCerts fuel = Except.ok P) :
    2 ≤ P.length := by
  rcases sort_ok_shape h with ⟨leafCert, allPaths, hlast, hbp, hne, hP⟩
  have hleaf : leafCert ∈ localCerts := mem_of_getLast?_eq hlast
  have hss := selectShortest_mem hne
  have hsub := trustedFilter_sub hss
  have hnonnil :=
    (buildPaths_ok_paths localCerts fuel leafCert allPaths hleaf hbp _ hsub.1).1
  rw [hP, List.length_cons]
  have hpos := List.length_pos.mpr hnonnil
  omega

theorem checkPath_error_of_two {validAt : Nat} {path : List Cert}
    {e : VerifyError} (hlen : 2 ≤ path.length)
    (h : checkPath validAt path = Except.error e) :
    e = VerifyError.expired ∨ e = VerifyError.notCA ∨
      e = VerifyError.nameChaining := by
  unfold checkPath at h
  rw [if_neg (by omega : ¬ path.length < 2)] at h
  by_cases h1 : path.all (fun cert => validForDate cert validAt) = false
  · rw [if_pos h1] at h
    rw [Except.error.injEq] at h
    exact Or.inl h.symm
  · rw [if_neg h1] at h
    by_cases h2 : (path.drop 1).all (fun cert => cert.isCA) = false
    · rw [if_pos h2] at h
      rw [Except.error.injEq] at h
      exact Or.inr (Or.inl h.symm)
    · rw [if_neg h2] at h
      by_cases h3 : nameChainOk path = false
      · rw [if_pos h3] at h
        rw [Except.error.injEq] at h
        exact Or.inr (Or.inr h.symm)
      · rw [if_neg h3] at h; cases h

/-! ### Concrete certificates for counterexamples and witnesses -/

/-- A self-signed, self-verifying CA certificate, valid on the window
`[0, 10]`. -/
def selfCA : Cert :=
  { subject := 1, issuer := 1, isCA := true, notBefore := 0, notAfter := 10,
    akid := none, skid := none, key := 10, signedBy := 10,
    selfRaises := false, raiseWith := [] }

/-- A leaf certificate issued (by name and by signature) by `selfCA`. -/
def leafY : Cert :=
  { subject := 2, issuer := 1, isCA := false, notBefore := 0, notAfter := 10,
    akid := none, skid := none, key := 11, signedBy := 10,
    selfRaises := false, raiseWith := [] }

/-- A certificate unrelated to every other certificate of this file. -/
def otherZ : Cert :=
  { subject := 50, issuer := 60, isCA := false, notBefore := 0, notAfter := 10,
    akid := none, skid := none, key := 1, signedBy := 2,
    selfRaises := false, raiseWith := [] }

/-- A leaf issued by `cca`. -/
def cleaf : Cert :=
  { subject := 3, issuer := 4, isCA := false, notBefore := 0, notAfter := 10,
    akid := none, skid := none, key := 99, signedBy := 20,
    selfRaises := false, raiseWith := [] }

/-- An intermediate CA issued by `croot`. -/
def cca : Cert :=
  { subject := 4, issuer := 5, isCA := true, notBefore := 0, notAfter := 10,
    akid := none, skid := none, key := 20, signedBy := 30,
    selfRaises := false, raiseWith := [] }

/-- A self-signed root CA issuing `cca`. -/
def croot : Cert :=
  { subject := 5, issuer := 5, isCA := true, notBefore := 0, notAfter := 10,
    akid := none, skid := none, key := 30, signedBy := 30,
    selfRaises := false, raiseWith := [] }

/-- A certificate carrying an authority key identifier. -/
def akidCert : Cert :=
  { subject := 6, issuer := 7, isCA := false, notBefore := 0, notAfter := 10,
    akid := some 1, skid := none, key := 0, signedBy := 40,
    selfRaises := false, raiseWith := [] }

/-- A pool member with no subject key identifier whose subject matches
`akidCert.issuer` and whose key verifies `akidCert`. -/
def noSkidIssuer : Cert :=
  { subject := 7, issuer := 8, isCA := true, notBefore := 0, notAfter := 10,
    akid := none, skid := none, key := 40, signedBy := 0,
    selfRaises := false, raiseWith := [] }

/-- A self-signed certificate whose no-argument signature check raises. -/
def raiseCert : Cert :=
  { subject := 9, issuer := 9, isCA := true, notBefore := 0, notAfter := 10,
    akid := none, skid := none, key := 5, signedBy := 5,
    selfRaises := true, raiseWith := [] }

/-- A leaf with two alternative issuers (`rA` and `caB` share subject `21` and
key `100`). -/
def leaf0 : Cert :=
  { subject := 20, issuer := 21, isCA := false, notBefore := 0, notAfter := 10,
    akid := none, skid := none, key := 1, signedBy := 100,
    selfRaises := false, raiseWith := [] }

/-- A self-signed trusted root that issues `leaf0` directly (short path). -/
def rA : Cert :=
  { subject := 21, issuer := 21, isCA := true, notBefore := 0, notAfter := 10,
    akid := none, skid := none, key := 100, signedBy := 100,
    selfRaises := false, raiseWith := [] }

/-- An intermediate CA that also issues `leaf0` but chains through `rC`
(long path). -/
def caB : Cert :=
  { subject := 21, issuer := 22, isCA := true, notBefore := 0, notAfter := 10,
    akid := none, skid := none, key := 100, signedBy := 200,
    selfRaises := false, raiseWith := [] }

/-- The self-signed trusted root of the long path through `caB`. -/
def rC : Cert :=
  { subject := 22, issuer := 22, isCA := true, notBefore := 0, notAfter := 10,
    akid := none, skid := none, key := 200, signedBy := 200,
    selfRaises := false, raiseWith := [] }

/-- A certificate whose signature check raises on the key of `pBad` and
verifies against the key of `pGood`. -/
def cw : Cert :=
  { subject := 11, issuer := 12, isCA := false, notBefore := 0, notAfter := 10,
    akid := none, skid := none, key := 3, signedBy := 77,
    selfRaises := false, raiseWith := [88] }

/-- A candidate issuer of `cw` on which `cw.verify` raises. -/
def pBad : Cert :=
  { subject := 12, issuer := 13, isCA := true, notBefore := 0, notAfter := 10,
    akid := none, skid := none, key := 88, signedBy := 0,
    selfRaises := false, raiseWith := [] }

/-- A candidate issuer of `cw` on which `cw.verify` succeeds. -/
def pGood : Cert :=
  { subject := 12, issuer := 14, isCA := true, notBefore := 0, notAfter := 10,
    akid := none, skid := none, key := 77, signedBy := 0,
    selfRaises := false, raiseWith := [] }

/-! ### Claim theorems -/

/-- Recognizer of the chain-too-short failure, used to state its
unreachability without a hypothesis. -/
def isChainTooShortResult : Except VerifyError (List Cert) → Bool
  | Except.error VerifyError.chainTooShort => true
  | _ => false

/-- C6: for every trusted certificate set and every validity instant, an empty
supplied certificate list makes `verifyCertificateChain` fail with the
"No certificates provided" error, before any path search. -/
theorem C6_empty_supplied (trustedCerts : List Cert) (validAt : Nat) :
    verifyCertificateChain trustedCerts [] validAt =
      Except.error VerifyError.noCertificates := rfl

/-- C2 counterexample: a single supplied certificate that is self-signed,
self-verifying and also trusted does not produce the chain-too-short error:
`verifyCertificateChain` accepts it and returns the two-element chain
consisting of the certificate twice. -/
theorem C2_counterexample :
    verifyCertificateChain [selfCA] [selfCA] 5 = Except.ok [selfCA, selfCA] ∧
    isChainTooShortResult (verifyCertificateChain [selfCA] [selfCA] 5) = false :=
  ⟨rfl, rfl⟩

/-- C2 (amended): the chain-too-short error is unreachable through
`verifyCertificateChain`, and a single-certificate result is indeed never
accepted — every returned chain has at least two elements (the lone trusted
self-signed certificate yields the two-element chain `[c, c]`, not a
failure). -/
theorem C2_no_chain_too_short (trustedCerts certs : List Cert) (validAt : Nat) :
    isChainTooShortResult (verifyCertificateChain trustedCerts certs validAt) =
      false ∧
    ∀ P, verifyCertificateChain trustedCerts certs validAt = Except.ok P →
      2 ≤ P.length := by
  constructor
  · unfold verifyCertificateChain verify
    by_cases hemp : certs.isEmpty
    · rw [if_pos hemp]; rfl
    · rw [if_neg hemp]
      cases hs : sort trustedCerts (dedupeCertificates (trustedCerts ++ certs))
          ((dedupeCertificates (trustedCerts ++ certs)).length + 1) with
      | error e =>
        rcases sort_error_cases hs with h1 | h1 | h1 | h1 <;>
          (subst h1; rfl)
      | ok certificatePath =>
        dsimp only
        cases hcp : checkPath validAt certificatePath with
        | error e =>
          rcases checkPath_error_of_two (sort_ok_len hs) hcp with h1 | h1 | h1 <;>
            (subst h1; rfl)
        | ok u => rfl
  · intro P h
    exact sort_ok_len (verify_ok_shape h).2.1

/-- C2 witness: the length bound applied at a concrete accepted chain. -/
theorem C2_no_chain_too_short_witness :
    2 ≤ ([selfCA, selfCA] : List Cert).length :=
  (C2_no_chain_too_short [selfCA] [selfCA] 5).2 [selfCA, selfCA] rfl

/-- C7: `checkPath` applies its four rules in the fixed order — length,
validity at the instant, CA flags beyond the leaf, adjacent name chaining —
raising the error of the earliest violated rule; it succeeds exactly when all
four hold, and every chain returned by `verifyCertificateChain` passed all
four checks (no partial result survives a violation). -/
theorem C7_check_order (validAt : Nat) (path : List Cert) :
    (path.length < 2 →
      checkPath validAt path = Except.error VerifyError.chainTooShort) ∧
    (2 ≤ path.length →
      path.all (fun c => validForDate c validAt) = false →
      checkPath validAt path = Except.error VerifyError.expired) ∧
    (2 ≤ path.length →
      path.all (fun c => validForDate c validAt) = true →
      (path.drop 1).all (fun c => c.isCA) = false →
      checkPath validAt path = Except.error VerifyError.notCA) ∧
    (2 ≤ path.length →
      path.all (fun c => validForDate c validAt) = true →
      (path.drop 1).all (fun c => c.isCA) = true →
      nameChainOk path = false →
      checkPath validAt path = Except.error VerifyError.nameChaining) ∧
    (checkPath validAt path = Except.ok () ↔
      (2 ≤ path.length ∧
       path.all (fun c => validForDate c validAt) = true ∧
       (path.drop 1).all (fun c => c.isCA) = true ∧
       nameChainOk path = true)) ∧
    (∀ (trustedCerts certs P : List Cert),
      verifyCertificateChain trustedCerts certs validAt = Except.ok P →
      checkPath validAt P = Except.ok ()) := by
  refine ⟨?_, ?_, ?_, ?_, ⟨?_, ?_⟩, ?_⟩
  · intro h
    unfold checkPath
    rw [if_pos h]
  · intro hlen h1
    unfold checkPath
    rw [if_neg (by omega : ¬ path.length < 2), if_pos h1]
  · intro hlen h1 h2
    unfold checkPath
    rw [if_neg (by omega : ¬ path.length < 2), if_neg (by simp [h1]), if_pos h2]
  · intro hlen h1 h2 h3
    unfold checkPath
    rw [if_neg (by omega : ¬ path.length < 2), if_neg (by simp [h1]),
      if_neg (by rw [h2]; decide), if_pos h3]
  · intro h
    unfold checkPath at h
    by_cases h1 : path.length < 2
    · rw [if_pos h1] at h; cases h
    · rw [if_neg h1] at h
      by_cases h2 : path.all (fun c => validForDate c validAt) = false
      · rw [if_pos h2] at h; cases h
      · rw [if_neg h2] at h
        by_cases h3 : (path.drop 1).all (fun c => c.isCA) = false
        · rw [if_pos h3] at h; cases h
        · rw [if_neg h3] at h
          by_cases h4 : nameChainOk path = false
          · rw [if_pos h4] at h; cases h
          · refine ⟨by omega, ?_, ?_, ?_⟩
            · cases hb : path.all (fun c => validForDate c validAt)
              · exact absurd hb h2
              · rfl
            · cases hb : (path.drop 1).all (fun c => c.isCA)
              · exact absurd hb h3
              · rfl
            · cases hb : nameChainOk path
              · exact absurd hb h4
              · rfl
  · rintro ⟨hl, h2, h3, h4⟩
    unfold checkPath
    rw [if_neg (by omega : ¬ path.length < 2), if_neg (by simp [h2]),
      if_neg (by rw [h3]; decide), if_neg (by rw [h4]; decide)]
  · intro trustedCerts certs P h
    exact (verify_ok_shape h).2.2

/-- C7 witness: each rule discharged at a concrete path, including a path
violating both the CA rule and the name-chaining rule where the earlier CA
error is raised. -/
theorem C7_check_order_witness :
    checkPath 5 [selfCA] = Except.error VerifyError.chainTooShort ∧
    checkPath 99 [leafY, selfCA] = Except.error VerifyError.expired ∧
    checkPath 5 [selfCA, leafY] = Except.error VerifyError.notCA ∧
    checkPath 5 [selfCA, cca] = Except.error VerifyError.nameChaining ∧
    checkPath 5 [leafY, selfCA] = Except.ok () :=
  ⟨(C7_check_order 5 [selfCA]).1 (by decide),
   (C7_check_order 99 [leafY, selfCA]).2.1 (by decide) (by decide),
   (C7_check_order 5 [selfCA, leafY]).2.2.1 (by decide) (by decide) (by decide),
   (C7_check_order 5 [selfCA, cca]).2.2.2.1 (by decide) (by decide) (by decide)
     (by decide),
   (C7_check_order 5 [leafY, selfCA]).2.2.2.2.1.mpr (by decide)⟩

/-- C1 counterexample: the first element of a returned chain need not belong
to the supplied certificates (it is the last element of the deduplicated
pool, which can come from the trusted set), and the final element need not
belong to the trusted set (the filter only requires some element of the path
to be trusted). -/
theorem C1_counterexample :
    verifyCertificateChain [selfCA, leafY] [selfCA] 5 =
      Except.ok [leafY, selfCA, selfCA] ∧
    leafY ∉ ([selfCA] : List Cert) ∧
    verifyCertificateChain [cca] [croot, cleaf] 5 =
      Except.ok [cleaf, cca, croot, croot] ∧
    ([cleaf, cca, croot, croot] : List Cert).getLast? = some croot ∧
    croot ∉ ([cca] : List Cert) :=
  ⟨rfl, by decide, rfl, rfl, by decide⟩

/-- C1 (amended): for every returned chain `P`, the first element is the last
element of the deduplicated pool (hence a member of trusted ++ supplied,
though not necessarily of the supplied set), and at least one element of `P`
(not necessarily the final one) is a member of the trusted set. -/
theorem C1_chain_endpoints (trustedCerts certs : List Cert) (validAt : Nat)
    (P : List Cert)
    (h : verifyCertificateChain trustedCerts certs validAt = Except.ok P) :
    (∃ leafCert rest, P = leafCert :: rest ∧
      (dedupeCertificates (trustedCerts ++ certs)).getLast? = some leafCert ∧
      leafCert ∈ trustedCerts ++ certs) ∧
    ∃ x, x ∈ P ∧ x ∈ trustedCerts := by
  rcases verify_ok_shape h with ⟨hC, hs, hcp⟩
  rcases sort_ok_shape hs with ⟨leafCert, allPaths, hlast, hbp, hne, hP⟩
  constructor
  · exact ⟨leafCert, _, hP, hlast, dedupe_subset (mem_of_getLast?_eq hlast)⟩
  · have hss := selectShortest_mem hne
    rcases trustedFilter_sub hss with ⟨hmem, x, hx, hxT⟩
    exact ⟨x, by rw [hP]; exact List.mem_cons_of_mem _ hx, hxT⟩

/-- C1 witness: the amended endpoints property at a concrete accepted
chain. -/
theorem C1_chain_endpoints_witness :
    (∃ leafCert rest, ([leafY, selfCA, selfCA] : List Cert) = leafCert :: rest ∧
      (dedupeCertificates ([selfCA] ++ [leafY])).getLast? = some leafCert ∧
      leafCert ∈ [selfCA] ++ [leafY]) ∧
    ∃ x, x ∈ ([leafY, selfCA, selfCA] : List Cert) ∧ x ∈ [selfCA] :=
  C1_chain_endpoints [selfCA] [leafY] 5 [leafY, selfCA, selfCA] rfl

/-- C10: every certificate of a returned chain is an element of the
deduplicated pool built from the trusted certificates followed by the
supplied certificates — path building never introduces a certificate from
outside the caller's inputs. -/
theorem C10_chain_in_pool (trustedCerts certs : List Cert) (validAt : Nat)
    (P : List Cert) (x : Cert)
    (h : verifyCertificateChain trustedCerts certs validAt = Except.ok P)
    (hx : x ∈ P) :
    x ∈ dedupeCertificates (trustedCerts ++ certs) ∧
    x ∈ trustedCerts ++ certs := by
  rcases verify_ok_shape h with ⟨hC, hs, hcp⟩
  rcases sort_ok_shape hs with ⟨leafCert, allPaths, hlast, hbp, hne, hP⟩
  have hleaf := mem_of_getLast?_eq hlast
  have hss := selectShortest_mem hne
  rcases trustedFilter_sub hss with ⟨hmem, _⟩
  have hsub := buildPaths_ok_paths _ _ _ _ hleaf hbp _ hmem
  subst hP
  rcases List.mem_cons.mp hx with h1 | h1
  · subst h1
    exact ⟨hleaf, dedupe_subset hleaf⟩
  · have hx2 := hsub.2 x h1
    exact ⟨hx2, dedupe_subset hx2⟩

/-- C10 witness: membership of a concrete chain element in the pool. -/
theorem C10_chain_in_pool_witness :
    leafY ∈ dedupeCertificates ([selfCA] ++ [leafY]) ∧
    leafY ∈ [selfCA] ++ [leafY] :=
  C10_chain_in_pool [selfCA] [leafY] 5 [leafY, selfCA, selfCA] leafY rfl
    (by decide)

/-- C3 counterexample: a pool member with no subject key identifier is a
candidate issuer of a certificate that carries an authority key identifier —
it is matched via the name-based fallback and returned by `findIssuer`. -/
theorem C3_counterexample :
    akidCert.akid = some 1 ∧ noSkidIssuer.skid = none ∧
    findIssuer [noSkidIssuer] akidCert = Except.ok [noSkidIssuer] :=
  ⟨rfl, rfl, rfl⟩

/-- C3 (amended): when the certificate carries an authority key identifier,
pool members that carry a subject key identifier are candidates exactly when
the identifiers match (the name-based fallback is suppressed for them), while
pool members with no subject key identifier fall back to the name-based
comparison of their subject with the certificate's issuer. -/
theorem C3_akid_candidates (pool : List Cert) (c : Cert) (kid : Nat)
    (h : c.akid = some kid) :
    candidateIssuers pool c =
      pool.filter (fun p =>
        match p.skid with
        | some sk => decide (sk = kid)
        | none => decide (p.subject = c.issuer)) := by
  rw [candidateIssuers_eq_filter]
  apply List.filter_congr
  intro p _
  unfold candidateCond
  rw [h]

/-- C3 witness: the candidate characterization applied at a concrete pool. -/
theorem C3_akid_candidates_witness :
    candidateIssuers [noSkidIssuer, croot] akidCert =
      ([noSkidIssuer, croot] : List Cert).filter (fun p =>
        match p.skid with
        | some sk => decide (sk = 1)
        | none => decide (p.subject = akidCert.issuer)) :=
  C3_akid_candidates [noSkidIssuer, croot] akidCert 1 rfl

/-- C4 counterexample: adding to the trusted set a certificate structurally
equal to a supplied one (the "vice versa" direction of the claim) changes the
outcome — here from the no-trusted-path failure to an accepted chain. -/
theorem C4_counterexample :
    verifyCertificateChain [otherZ] [selfCA] 5 =
      Except.error VerifyError.noTrustedPath ∧
    verifyCertificateChain [otherZ, selfCA] [selfCA] 5 =
      Except.ok [selfCA, selfCA] :=
  ⟨rfl, rfl⟩

/-- C4 (amended): appending to a non-empty supplied list a certificate
structurally equal to a trusted one leaves the outcome of
`verifyCertificateChain` unchanged — the duplicate is removed by
deduplication before the path search; the symmetric direction (enlarging the
trusted set) and the empty supplied list are excluded by the
counterexample. -/
theorem C4_dupe_of_trusted (trustedCerts certs : List Cert) (validAt : Nat)
    (d : Cert) (hd : d ∈ trustedCerts) (hC : certs ≠ []) :
    verifyCertificateChain trustedCerts (certs ++ [d]) validAt =
      verifyCertificateChain trustedCerts certs validAt := by
  have hpool : dedupeCertificates (trustedCerts ++ (certs ++ [d])) =
      dedupeCertificates (trustedCerts ++ certs) := by
    rw [← List.append_assoc]
    exact dedupe_append_of_mem (List.mem_append.mpr (Or.inl hd))
  unfold verifyCertificateChain verify
  rw [hpool]
  rw [if_neg (by simp : ¬ (certs ++ [d]).isEmpty = true),
    if_neg (by simpa [List.isEmpty_iff] using hC)]

/-- C4 witness: the unchanged outcome at a concrete input. -/
theorem C4_dupe_of_trusted_witness :
    verifyCertificateChain [selfCA] ([leafY] ++ [selfCA]) 5 =
      verifyCertificateChain [selfCA] [leafY] 5 :=
  C4_dupe_of_trusted [selfCA] [leafY] 5 selfCA (by decide) (by decide)

/-- C5: among the built issuer-side paths that contain a trusted certificate,
`sort` selects one of minimal length (the first such in iteration order,
deterministically) and returns it with the leaf prepended. -/
theorem C5_shortest_selected (trustedCerts localCerts : List Cert) (fuel : Nat)
    (leafCert : Cert) (allPaths : List (List Cert))
    (hlast : localCerts.getLast? = some leafCert)
    (hbp : buildPaths localCerts fuel leafCert = Except.ok allPaths)
    (hne : trustedFilter trustedCerts allPaths ≠ []) :
    sort trustedCerts localCerts fuel =
      Except.ok
        (leafCert :: selectShortest (trustedFilter trustedCerts allPaths)) ∧
    selectShortest (trustedFilter trustedCerts allPaths) ∈
      trustedFilter trustedCerts allPaths ∧
    ∀ q ∈ trustedFilter trustedCerts allPaths,
      (selectShortest (trustedFilter trustedCerts allPaths)).length ≤
        q.length := by
  refine ⟨?_, selectShortest_mem hne, selectShortest_min⟩
  unfold sort
  rw [hlast]
  dsimp only
  rw [hbp]
  dsimp only
  rw [if_neg (by simpa [List.isEmpty_iff] using hne)]

/-- C5 witness: with issuer-side paths of lengths 2 and 3 to trusted roots,
the length-2 path is selected. -/
theorem C5_shortest_selected_witness :
    (sort [rA, rC] [rA, rC, caB, leaf0] 5 =
      Except.ok (leaf0 ::
        selectShortest (trustedFilter [rA, rC] [[rA, rA], [caB, rC, rC]])) ∧
     selectShortest (trustedFilter [rA, rC] [[rA, rA], [caB, rC, rC]]) ∈
       trustedFilter [rA, rC] [[rA, rA], [caB, rC, rC]] ∧
     ∀ q ∈ trustedFilter [rA, rC] [[rA, rA], [caB, rC, rC]],
       (selectShortest
         (trustedFilter [rA, rC] [[rA, rA], [caB, rC, rC]])).length ≤
         q.length) ∧
    selectShortest (trustedFilter [rA, rC] [[rA, rA], [caB, rC, rC]]) =
      [rA, rA] ∧
    sort [rA, rC] [rA, rC, caB, leaf0] 5 = Except.ok [leaf0, rA, rA] :=
  ⟨C5_shortest_selected [rA, rC] [rA, rC, caB, leaf0] 5 leaf0
      [[rA, rA], [caB, rC, rC]] rfl rfl (by decide),
   rfl, rfl⟩

/-- C8 counterexample: an exception raised by the certificate abstraction's
no-argument signature self-check during issuer discovery is not caught — it
propagates out of `verifyCertificateChain` (the try/catch only guards the
`verify(issuer)` filter, not the self-signed early exit). -/
theorem C8_counterexample :
    raiseCert.subject = raiseCert.issuer ∧ raiseCert.selfRaises = true ∧
    verifyCertificateChain [] [raiseCert] 5 =
      Except.error VerifyError.certRaise :=
  ⟨rfl, rfl, rfl⟩

/-- C8 (amended): exceptions raised by `verify(issuer)` during the candidate
filter are caught locally and the candidate is merely excluded — every issuer
returned by `findIssuer` other than the certificate itself has
`verify(issuer) = true`; the only exception that escapes `findIssuer` is the
unguarded no-argument self-check of a self-signed certificate. -/
theorem C8_raise_handling (pool : List Cert) (c : Cert) :
    (∀ e, findIssuer pool c = Except.error e →
      e = VerifyError.certRaise ∧ c.subject = c.issuer ∧
        c.selfRaises = true) ∧
    (∀ issuers i, findIssuer pool c = Except.ok issuers → i ∈ issuers →
      i = c ∨ verifyWith c i = Except.ok true) :=
  ⟨fun _ h => findIssuer_error_eq h,
   fun _ i h hi => findIssuer_ok_verified h i hi⟩

/-- C8 witness: a raising candidate (`pBad`) is excluded while the call
succeeds, and the surviving candidate verifies. -/
theorem C8_raise_handling_witness :
    (pGood = cw ∨ verifyWith cw pGood = Except.ok true) ∧
    findIssuer [pBad, pGood] cw = Except.ok [pGood] :=
  ⟨(C8_raise_handling [pBad, pGood] cw).2 [pGood] pGood rfl (by decide), rfl⟩

/-- C9 counterexample: the claim fails when the trusted set contains further
certificates after the copy of `c` — the leaf of the search is the last
element of the deduplicated pool, which is then not `c`, and the call fails
although every hypothesis of the claim holds. -/
theorem C9_counterexample :
    (selfCA.subject = selfCA.issuer ∧ verifySelf selfCA = Except.ok true ∧
     selfCA ∈ ([selfCA, otherZ] : List Cert) ∧ selfCA.isCA = true ∧
     validForDate selfCA 5 = true) ∧
    verifyCertificateChain [selfCA, otherZ] [selfCA] 5 =
      Except.error VerifyError.noValidPath :=
  ⟨⟨rfl, rfl, by decide, rfl, rfl⟩, rfl⟩

/-- C9 (amended): if the single supplied certificate `c` is self-signed,
self-verifying, structurally equal to a trusted certificate, a CA, valid at
the instant, and additionally is the last element of the deduplicated pool
(as when the trusted set is exactly `[c]`), then `verifyCertificateChain`
succeeds and returns the two-element chain `[c, c]` — the same certificate
twice, so returned chains need not have pairwise distinct elements. -/
theorem C9_self_signed_chain (trustedCerts : List Cert) (c : Cert)
    (validAt : Nat) (hss : c.subject = c.issuer) (hraise : c.selfRaises = false)
    (hkey : c.signedBy = c.key) (hT : c ∈ trustedCerts) (hca : c.isCA = true)
    (hvalid : validForDate c validAt = true)
    (hlast : (dedupeCertificates (trustedCerts ++ [c])).getLast? = some c) :
    verifyCertificateChain trustedCerts [c] validAt = Except.ok [c, c] := by
  have hfi : findIssuer (dedupeCertificates (trustedCerts ++ [c])) c =
      Except.ok [c] := by
    unfold findIssuer verifySelf
    rw [if_pos hss]
    simp [hraise, hkey]
  have hbp : buildPaths (dedupeCertificates (trustedCerts ++ [c]))
      ((dedupeCertificates (trustedCerts ++ [c])).length + 1) c =
      Except.ok [[c]] := by
    rw [buildPaths, hfi]
    dsimp only
    rw [if_neg (by simp), combinePaths, if_pos rfl, combinePaths,
      List.nil_append]
  have htm : trustedMember trustedCerts c = true := (trustedMember_iff _ _).mpr hT
  have hf : trustedFilter trustedCerts [[c]] = [[c]] := by
    simp [trustedFilter, htm]
  have hsort : sort trustedCerts (dedupeCertificates (trustedCerts ++ [c]))
      ((dedupeCertificates (trustedCerts ++ [c])).length + 1) =
      Except.ok [c, c] := by
    unfold sort
    rw [hlast]
    dsimp only
    rw [hbp]
    dsimp only
    rw [hf]
    rw [if_neg (by simp)]
    rfl
  have hcp : checkPath validAt [c, c] = Except.ok () := by
    unfold checkPath
    rw [if_neg (by simp)]
    rw [if_neg (by simp [hvalid])]
    rw [if_neg (by simp [hca])]
    rw [if_neg (by simp [nameChainOk, hss])]
  unfold verifyCertificateChain verify
  rw [if_neg (by simp : ¬ ([c] : List Cert).isEmpty = true)]
  rw [hsort]
  dsimp only
  rw [hcp]

/-- C9 witness: the amended success property at a concrete self-signed
trusted CA. -/
theorem C9_self_signed_chain_witness :
    verifyCertificateChain [selfCA] [selfCA] 7 = Except.ok [selfCA, selfCA] :=
  C9_self_signed_chain [selfCA] selfCA 7 rfl rfl rfl (by decide) rfl rfl rfl

end SigstoreX509
